import Mathlib

/- Formal model of the session-lifecycle and request-orchestration core of
the ai-code-reviewer browser extension (src/utils/ai-manager.js, the two
AIManager variants; src/utils/helpers.js; the background dispatcher in
src/unnamed/part_000).  JavaScript asynchrony is modelled by explicit event
traces: the synchronous prefix of each async function is one atomic step,
and promise settlement is a separate step; capability behaviour
(availability, create, prompt, write, rewrite, summarize, translate,
destroy) is an environment parameter. -/

set_option maxHeartbeats 1000000

/-- Outcome a caller observes from the synchronous prefix of
initPromptSession (ai-manager.js, enhanced variant, lines 332-348; the
writer, rewriter and summarizer initialisers have the identical shape). -/
inductive InitCallOutcome where
  | memoized (sid : Nat)
  | joined (pid : Nat)
  | started (pid : Nat)
  deriving Repr, DecidableEq

/-- Manager state relevant to one non-translator kind: the memoized session
(this.sessions.prompt), the in-flight creation promise
(this.initializationPromises entry for the kind), a fresh promise-id
counter, and the number of creation attempts (_create*Session calls). -/
structure InitState where
  sessionPrompt : Option Nat
  inFlight : Option Nat
  nextPid : Nat
  createAttempts : Nat
  deriving Repr, DecidableEq

def initState0 : InitState := ⟨none, none, 0, 0⟩

/-- Synchronous prefix of initPromptSession: return the in-flight promise if
one is registered, else the memoized session, else start a creation and
register its promise in initializationPromises (lines 333-340). -/
def callStep (st : InitState) : InitState × InitCallOutcome :=
  match st.inFlight with
  | some p => (st, .joined p)
  | none =>
    match st.sessionPrompt with
    | some s => (st, .memoized s)
    | none =>
      ({ sessionPrompt := none, inFlight := some st.nextPid,
         nextPid := st.nextPid + 1, createAttempts := st.createAttempts + 1 },
       .started st.nextPid)

/-- Settlement of the in-flight creation promise: the starter's continuation
assigns this.sessions.prompt on fulfilment, and the finally block deletes
the initializationPromises entry on fulfilment and rejection alike
(lines 342-347). -/
def settleStep (st : InitState) (ok : Bool) : InitState :=
  match st.inFlight with
  | none => st
  | some p =>
      { sessionPrompt := if ok then some p else st.sessionPrompt,
        inFlight := none, nextPid := st.nextPid,
        createAttempts := st.createAttempts }

/-- Event-loop events touching one kind's initialisation state. -/
inductive InitEv where
  | call
  | settle (ok : Bool)
  deriving Repr, DecidableEq

def initRun (evs : List InitEv) (st : InitState) : InitState :=
  evs.foldl
    (fun s e => match e with | .call => (callStep s).1 | .settle ok => settleStep s ok)
    st

def ReachableInit (st : InitState) : Prop := ∃ evs, initRun evs initState0 = st

/-- n consecutive initPromptSession calls with no intervening settlement
(concurrent callers on the single event loop), collecting each caller's
outcome. -/
def initCallsFrom (st : InitState) : Nat → InitState × List InitCallOutcome
  | 0 => (st, [])
  | n + 1 =>
      let so := callStep st
      let rest := initCallsFrom so.1 n
      (rest.1, so.2 :: rest.2)

def initCalls (n : Nat) : InitState × List InitCallOutcome :=
  initCallsFrom initState0 n

/-- Invariant: while a creation is in flight, no session is memoized. -/
def InitInv (st : InitState) : Prop :=
  ∀ p, st.inFlight = some p → st.sessionPrompt = none

/-- Environment for _createPromptSession: whether the LanguageModel type is
present, the availability() outcome, and the LanguageModel.create outcome. -/
structure PromptEnv where
  apiPresent : Bool
  availability : Except String String
  createResult : Except String Nat

structure CreateOut where
  result : Except String Nat
  createCalls : Nat
  deriving Repr

/-- Model of _createPromptSession (lines 350-379): guard on the API type,
await availability() under a timeout, reject when unavailable, then issue
exactly one LanguageModel.create call.  createCalls counts capability
create() calls. -/
def createPromptSession (env : PromptEnv) : CreateOut :=
  if env.apiPresent = false then
    ⟨.error "Prompt API initialization failed: LanguageModel API not available", 0⟩
  else
    match env.availability with
    | .error e => ⟨.error ("Prompt API initialization failed: " ++ e), 0⟩
    | .ok a =>
        if a = "unavailable" then
          ⟨.error "Prompt API initialization failed: Prompt API unavailable", 0⟩
        else
          match env.createResult with
          | .error e => ⟨.error ("Prompt API initialization failed: " ++ e), 1⟩
          | .ok sid => ⟨.ok sid, 1⟩

def promptEnvHealthy : PromptEnv := ⟨true, .ok "readily", .ok 0⟩

/-- State of one (sourceLanguage, targetLanguage) translator entry.
initTranslatorSession (lines 653-685) memoizes only the completed session
in this.translatorSessions; unlike the other kinds it registers no
in-flight promise. -/
structure TransState where
  memo : Option Nat
  pendingCreates : Nat
  createAttempts : Nat
  deriving Repr, DecidableEq

def transState0 : TransState := ⟨none, 0, 0⟩

/-- Synchronous prefix of initTranslatorSession: return the memoized
translator if present, otherwise proceed to availability/create, so one
more creation is now in flight. -/
def transCallStep (st : TransState) : TransState :=
  match st.memo with
  | some _ => st
  | none =>
      { memo := none, pendingCreates := st.pendingCreates + 1,
        createAttempts := st.createAttempts + 1 }

/-- One pending translator creation completes and is memoized
(this.translatorSessions.set, line 679). -/
def transSettleStep (st : TransState) (sid : Nat) : TransState :=
  if st.pendingCreates = 0 then st
  else
    { memo := some sid, pendingCreates := st.pendingCreates - 1,
      createAttempts := st.createAttempts }

/-- Normalized result record of the reviewCode operation:
{ raw, timestamp, attempts } (enhanced variant lines 407-411; simple
variant lines 125-129).  The timestamp is the environment's clock value. -/
structure OperationResult where
  raw : String
  timestamp : Nat
  attempts : Nat
  deriving Repr, DecidableEq

/-- Environment of the reviewCode retry loop: the outcome of the k-th
attempt's session acquisition (initPromptSession when no session is
memoized) and of the k-th attempt's session.prompt call on session sid,
plus the clock. -/
structure ReviewEnv where
  create : Nat → Except String Nat
  promptCall : Nat → Nat → Except String String
  now : Nat

/-- One executed attempt: its 0-based index and whether it began with an
empty memo and therefore consulted a fresh session creation. -/
structure AttemptInfo where
  idx : Nat
  fresh : Bool
  deriving Repr, DecidableEq

/-- Observable outcome of a reviewCode run: the result, the memoized
session left in this.sessions.prompt, the backoff delays awaited
((attempt index, milliseconds), in order), the session ids on which
destroy() was attempted, and the executed attempts. -/
structure ReviewOut where
  result : Except String OperationResult
  finalMemo : Option Nat
  delays : List (Nat × Nat)
  destroyed : List Nat
  attempts : List AttemptInfo
  deriving Repr

/-- The try block of one reviewCode attempt (enhanced variant lines
386-411): obtain the session via initPromptSession — the memoized session
if present, else one fresh creation — then run session.prompt (on the
prompt built by reviewPromptEnhanced) under timeout.  Returns the
outcome, the memo after the try block, and whether a creation was
consulted. -/
def reviewTry (env : ReviewEnv) (memo : Option Nat) (k : Nat) :
    Except String String × Option Nat × Bool :=
  match memo with
  | some sid =>
      match env.promptCall k sid with
      | .ok r => (.ok r, some sid, false)
      | .error e => (.error e, some sid, false)
  | none =>
      match env.create k with
      | .error e => (.error e, none, true)
      | .ok sid =>
          match env.promptCall k sid with
          | .ok r => (.ok r, some sid, true)
          | .error e => (.error e, some sid, true)

/-- The retry loop of reviewCode (enhanced variant lines 385-429), at
attempt index k with rl further attempts allowed.  On success the result
records attempts = k + 1.  On failure the catch block attempts destroy()
on the memoized session and clears the memo; if retries remain, one
backoff delay of delayMs k milliseconds is awaited and the next attempt
starts with an empty memo.  The enhanced variant uses
delayMs k = 1000 * (k + 1) with maxRetries = 2; the simple variant
(lines 94-150) uses a constant 3000 with maxRetries = 1. -/
def reviewGo (env : ReviewEnv) (delayMs : Nat → Nat) :
    Nat → Nat → Option Nat → ReviewOut
  | k, 0, memo =>
      match reviewTry env memo k with
      | (.ok r, memo1, fresh) =>
          ⟨.ok ⟨r, env.now, k + 1⟩, memo1, [], [], [⟨k, fresh⟩]⟩
      | (.error e, memo1, fresh) =>
          ⟨.error e, none, [], memo1.toList, [⟨k, fresh⟩]⟩
  | k, rl + 1, memo =>
      match reviewTry env memo k with
      | (.ok r, memo1, fresh) =>
          ⟨.ok ⟨r, env.now, k + 1⟩, memo1, [], [], [⟨k, fresh⟩]⟩
      | (.error _, memo1, fresh) =>
          let rest := reviewGo env delayMs (k + 1) rl none
          ⟨rest.result, rest.finalMemo, (k, delayMs k) :: rest.delays,
           memo1.toList ++ rest.destroyed, ⟨k, fresh⟩ :: rest.attempts⟩

/-- reviewCode, enhanced variant (lines 381-432): maxRetries = 2, backoff
1000 * (attempt + 1) ms, and the final error names the attempt count. -/
def reviewCode (env : ReviewEnv) (memo : Option Nat) : ReviewOut :=
  let out := reviewGo env (fun k => 1000 * (k + 1)) 0 2 memo
  { out with result :=
      match out.result with
      | .ok r => .ok r
      | .error e => .error ("Review failed after 3 attempts: " ++ e) }

/-- Outcome of helpers.js retryWithBackoff: result, awaited delays
((attempt index, milliseconds)), and number of attempts performed. -/
structure RetryOut where
  result : Except String String
  delays : List (Nat × Nat)
  tries : Nat
  deriving Repr

/-- helpers.js retryWithBackoff loop (lines 337-357) at attempt k with rl
retries left: on failure before the last attempt, await
baseDelay * 2 ^ attempt milliseconds and retry. -/
def retryGo (f : Nat → Except String String) (baseDelay : Nat) :
    Nat → Nat → RetryOut
  | k, 0 =>
      match f k with
      | .ok r => ⟨.ok r, [], 1⟩
      | .error e =>
          ⟨.error ("Failed after " ++ toString (k + 1) ++ " attempts: " ++ e), [], 1⟩
  | k, rl + 1 =>
      match f k with
      | .ok r => ⟨.ok r, [], 1⟩
      | .error _ =>
          let rest := retryGo f baseDelay (k + 1) rl
          ⟨rest.result, (k, baseDelay * 2 ^ k) :: rest.delays, rest.tries + 1⟩

def retryWithBackoff (f : Nat → Except String String) (maxRetries baseDelay : Nat) :
    RetryOut :=
  retryGo f baseDelay 0 maxRetries

/-- Observable outcome of the single-shot operations (generateDocumentation,
refactorCode, summarizePR): result, the kind's memoized session afterwards,
the number of session-creation attempts issued, and the session ids on
which destroy() was attempted. -/
structure OpOut where
  result : Except String String
  memo : Option Nat
  creates : Nat
  destroyed : List Nat
  deriving Repr

/-- generateDocumentation, enhanced variant (lines 484-509): obtain the
writer session via initWriterSession (memoized, else one creation
attempt), call writer.write under timeout; on failure the error is logged
and rethrown — there is no retry, destroy() is never called, and the
session stays memoized. -/
def generateDocumentation (create : Except String Nat)
    (writeCall : Nat → Except String String) (memo : Option Nat) : OpOut :=
  match memo with
  | some w =>
      match writeCall w with
      | .ok r => ⟨.ok r, some w, 0, []⟩
      | .error e => ⟨.error e, some w, 0, []⟩
  | none =>
      match create with
      | .error e => ⟨.error e, none, 1, []⟩
      | .ok w =>
          match writeCall w with
          | .ok r => ⟨.ok r, some w, 1, []⟩
          | .error e => ⟨.error e, some w, 1, []⟩

/-- refactorCode, enhanced variant (lines 561-586): same shape as
generateDocumentation, against the rewriter session. -/
def refactorCode (create : Except String Nat)
    (rewriteCall : Nat → Except String String) (memo : Option Nat) : OpOut :=
  match memo with
  | some s =>
      match rewriteCall s with
      | .ok r => ⟨.ok r, some s, 0, []⟩
      | .error e => ⟨.error e, some s, 0, []⟩
  | none =>
      match create with
      | .error e => ⟨.error e, none, 1, []⟩
      | .ok s =>
          match rewriteCall s with
          | .ok r => ⟨.ok r, some s, 1, []⟩
          | .error e => ⟨.error e, some s, 1, []⟩

/-- summarizePR (lines 638-650): same shape, against the summarizer
session. -/
def summarizePR (create : Except String Nat)
    (summarizeCall : Nat → Except String String) (memo : Option Nat) : OpOut :=
  match memo with
  | some s =>
      match summarizeCall s with
      | .ok r => ⟨.ok r, some s, 0, []⟩
      | .error e => ⟨.error e, some s, 0, []⟩
  | none =>
      match create with
      | .error e => ⟨.error e, none, 1, []⟩
      | .ok s =>
          match summarizeCall s with
          | .ok r => ⟨.ok r, some s, 1, []⟩
          | .error e => ⟨.error e, some s, 1, []⟩

def mapLookup {κ α : Type} [DecidableEq κ] (t : κ) : List (κ × α) → Option α
  | [] => none
  | (k, v) :: rest => if k = t then some v else mapLookup t rest

/-- translateComment (lines 687-698) with initTranslatorSession
(lines 653-685): the memo is the translatorSessions map keyed by
"source-target"; a missing entry triggers one creation attempt, and the
created translator is memoized before the translate call.  Returns the
result, the map afterwards, and the number of creation attempts. -/
def translateComment (create : String → String → Except String Nat)
    (translateCall : Nat → Except String String)
    (translators : List (String × Nat)) (targetLanguage sourceLanguage : String) :
    Except String String × List (String × Nat) × Nat :=
  let key := sourceLanguage ++ "-" ++ targetLanguage
  match mapLookup key translators with
  | some tr => (translateCall tr, translators, 0)
  | none =>
      match create sourceLanguage targetLanguage with
      | .error e => (.error ("Translator API initialization failed: " ++ e), translators, 1)
      | .ok tr => (translateCall tr, (key, tr) :: translators, 1)

/-- The backoff delays awaited by a run of m failed attempts starting at
attempt index k: one delay per failed attempt, in order. -/
def delaySeq (d : Nat → Nat) : Nat → Nat → List (Nat × Nat)
  | _, 0 => []
  | k, m + 1 => (k, d k) :: delaySeq d (k + 1) m

def reviewEnvOk : ReviewEnv :=
  ⟨fun k => .ok k, fun _ _ => .ok "fine", 7⟩

/-- Environment of the spec scenario: the first attempt's prompt() call
times out, the second succeeds. -/
def reviewEnvFirstTimeout : ReviewEnv :=
  ⟨fun k => .ok k,
   fun k _ => if k = 0 then .error "Operation timed out" else .ok "looks good", 7⟩

def reviewEnvAllFail : ReviewEnv :=
  ⟨fun k => .ok k, fun _ _ => .error "Operation timed out", 7⟩

/-- JavaScript code.substring(0, n): the prefix of at most n characters. -/
def jsSubstring (s : String) (n : Nat) : String := String.mk (s.data.take n)

def isJsWhitespace (c : Char) : Bool :=
  c == ' ' || c == '\t' || c == '\n' || c == '\r'

/-- JavaScript String.prototype.trim: strip leading and trailing
whitespace (the common whitespace characters suffice for this model). -/
def jsTrim (s : String) : String :=
  String.mk (((s.data.dropWhile isJsWhitespace).reverse.dropWhile
    isJsWhitespace).reverse)

/-- Prompt of the simple-variant reviewCode (lines 107-113): the code is
truncated to 2000 characters before the prompt is built. -/
def reviewPromptSimple (code : String) : String :=
  "Review this code briefly:\n\n```\n" ++ jsSubstring code 2000 ++
    "\n```\n\nList 3 key improvements."

/-- Prompt of the simple-variant generateDocumentation (lines 159-165). -/
def docPromptSimple (code : String) : String :=
  "Document this code:\n\n```\n" ++ jsSubstring code 2000 ++
    "\n```\n\nInclude main purpose and key functions."

/-- Prompt of the simple-variant refactorCode (lines 188-192). -/
def refactorPromptSimple (code : String) : String :=
  "Suggest 3 improvements for this code:\n\n```\n" ++ jsSubstring code 2000 ++
    "\n```"

/-- Prompt of the enhanced-variant reviewCode (lines 389-400): the code is
embedded verbatim, with no truncation. -/
def reviewPromptEnhanced (language code : String) : String :=
  "Review this " ++ language ++
    " for:\n1. Code quality and best practices\n2. Potential bugs and security issues\n3. Performance improvements\n4. Readability and maintainability\n\nCode:\n```\n" ++
    code ++ "\n```\n\nProvide a structured review with specific recommendations."

/-- Prompt of the enhanced-variant generateDocumentation (lines 488-497):
also embeds the code verbatim. -/
def docPromptEnhanced (code : String) : String :=
  "Generate comprehensive documentation for this code including:\n- Function/class descriptions\n- Parameters and return values\n- Usage examples\n- Important notes\n\nCode:\n```\n" ++
    code ++ "\n```"

def bigCode : String := String.mk (List.replicate 2500 'a')

/-- Environment of the simple-variant checkCapabilities: whether the
LanguageModel type exists, the outcome of the throwaway verification
create() under its 30s bound, and whether the test session destroy()
throws. -/
structure SimpleCapEnv where
  apiPresent : Bool
  createOutcome : Except String Nat
  destroyThrows : Bool

structure SimpleCapabilities where
  prompt : Bool
  promptStatus : String
  apiFound : Bool
  deriving Repr, DecidableEq

/-- checkCapabilities, simple variant (lines 19-60): starts from
{ prompt:false, promptStatus:'checking', apiFound:false }; an absent type
yields 'not-found'; a failing verification create (or a throwing destroy
of the test session, which lands in the same catch) yields 'error'; every
path returns a record — nothing is thrown outward. -/
def checkCapabilitiesSimple (env : SimpleCapEnv) : SimpleCapabilities :=
  if env.apiPresent then
    match env.createOutcome with
    | .ok _ =>
        if env.destroyThrows then ⟨true, "error", true⟩ else ⟨true, "readily", true⟩
    | .error _ => ⟨false, "error", true⟩
  else ⟨false, "not-found", false⟩

/-- One kind's probe environment for the enhanced checkCapabilities:
whether the capability type exists and the availability() outcome. -/
structure KindProbe where
  present : Bool
  availability : Except String String

structure EnhCapEnv where
  prompt : KindProbe
  writer : KindProbe
  rewriter : KindProbe
  summarizer : KindProbe
  translator : KindProbe

/-- The Capabilities record of the enhanced variant.  The status fields are
set only on a resolved availability() call; Option none models the
JavaScript field being left undefined. -/
structure EnhCapabilities where
  prompt : Bool
  writer : Bool
  rewriter : Bool
  summarizer : Bool
  translator : Bool
  apiFound : Bool
  promptStatus : Option String
  writerStatus : Option String
  rewriterStatus : Option String
  summarizerStatus : Option String
  translatorStatus : Option String
  deriving Repr, DecidableEq

/-- One kind's probe in the enhanced checkCapabilities (lines 252-321):
when the type is present and availability() resolves, the flag is
availability !== 'unavailable' and the raw status is kept; a missing type
or a rejected availability() leaves the flag false and the status unset
(the catch only logs a warning). -/
def probeKind (p : KindProbe) : Bool × Option String :=
  if p.present then
    match p.availability with
    | .ok a => (a != "unavailable", some a)
    | .error _ => (false, none)
  else (false, none)

/-- checkCapabilities, enhanced variant (lines 241-329): probes all five
kinds; apiFound is set exactly when the LanguageModel type exists; every
path returns the record. -/
def checkCapabilitiesEnhanced (env : EnhCapEnv) : EnhCapabilities :=
  ⟨(probeKind env.prompt).1, (probeKind env.writer).1, (probeKind env.rewriter).1,
   (probeKind env.summarizer).1, (probeKind env.translator).1,
   env.prompt.present,
   (probeKind env.prompt).2, (probeKind env.writer).2, (probeKind env.rewriter).2,
   (probeKind env.summarizer).2, (probeKind env.translator).2⟩

def simpleCapEnvAbsent : SimpleCapEnv := ⟨false, .error "no api", false⟩

def enhCapEnvAbsent : EnhCapEnv :=
  ⟨⟨false, .ok "readily"⟩, ⟨false, .ok "readily"⟩, ⟨false, .ok "readily"⟩,
   ⟨false, .ok "readily"⟩, ⟨false, .ok "readily"⟩⟩

/-- Inbound operation requests of the background dispatcher, discriminated
by the action tag (part_000 lines 359-411). -/
inductive Request where
  | reviewCode (code : String)
  | generateDocs (code : String)
  | refactorCode (code : String)
  | summarizePR (content : String)
  | translateComment (text targetLanguage sourceLanguage : String)
  | unknownAction (action : String)
  deriving Repr, DecidableEq

/-- Session state of one enhanced AIManager: the four memoized kind
sessions and the translatorSessions map. -/
structure MgrSt where
  prompt : Option Nat
  writer : Option Nat
  rewriter : Option Nat
  summarizer : Option Nat
  translators : List (String × Nat)
  deriving Repr, DecidableEq

def mgrSt0 : MgrSt := ⟨none, none, none, none, []⟩

/-- Uniform dispatcher response: { success: true, <field> } or
{ success: false, error }. -/
inductive Response where
  | ok (payload : String)
  | fail (error : String)
  deriving Repr, DecidableEq

/-- Capability behaviour consumed by one manager's operations. -/
structure AIEnv where
  review : ReviewEnv
  writerCreate : Except String Nat
  writeCall : Nat → Except String String
  rewriterCreate : Except String Nat
  rewriteCall : Nat → Except String String
  summarizerCreate : Except String Nat
  summarizeCall : Nat → Except String String
  translatorCreate : String → String → Except String Nat
  translateCall : Nat → Except String String

/-- The background dispatcher handleMessageAsync (part_000 lines 352-422)
acting on one manager: the validation guards run before any manager
method — code below 10 trimmed characters (or falsy, i.e. empty) throws
before any session work, while summarizePR and translateComment reject
only empty text; any thrown error becomes a { success:false, error }
response.  Returns the response, the manager state afterwards, and the
number of session-creation attempts issued while handling the request. -/
def handleMessageAsync (env : AIEnv) (st : MgrSt) : Request → Response × MgrSt × Nat
  | .reviewCode code =>
      if (jsTrim code).length < 10 then (.fail "Code is too short or empty", st, 0)
      else
        let out := reviewGo env.review (fun k => 1000 * (k + 1)) 0 2 st.prompt
        let creates := (out.attempts.filter (fun i => i.fresh)).length
        match out.result with
        | .ok res => (.ok res.raw, { st with prompt := out.finalMemo }, creates)
        | .error e =>
            (.fail ("Review failed after 3 attempts: " ++ e),
             { st with prompt := out.finalMemo }, creates)
  | .generateDocs code =>
      if (jsTrim code).length < 10 then (.fail "Code is too short or empty", st, 0)
      else
        let out := generateDocumentation env.writerCreate env.writeCall st.writer
        match out.result with
        | .ok r => (.ok r, { st with writer := out.memo }, out.creates)
        | .error e => (.fail e, { st with writer := out.memo }, out.creates)
  | .refactorCode code =>
      if (jsTrim code).length < 10 then (.fail "Code is too short or empty", st, 0)
      else
        let out := refactorCode env.rewriterCreate env.rewriteCall st.rewriter
        match out.result with
        | .ok r => (.ok r, { st with rewriter := out.memo }, out.creates)
        | .error e => (.fail e, { st with rewriter := out.memo }, out.creates)
  | .summarizePR content =>
      if content.isEmpty then (.fail "No content to summarize", st, 0)
      else
        let out := summarizePR env.summarizerCreate env.summarizeCall st.summarizer
        match out.result with
        | .ok r => (.ok r, { st with summarizer := out.memo }, out.creates)
        | .error e => (.fail e, { st with summarizer := out.memo }, out.creates)
  | .translateComment text targetLanguage sourceLanguage =>
      if text.isEmpty then (.fail "No text to translate", st, 0)
      else
        let tgt := if targetLanguage.isEmpty then "es" else targetLanguage
        let src := if sourceLanguage.isEmpty then "en" else sourceLanguage
        let out := translateComment env.translatorCreate env.translateCall
          st.translators tgt src
        match out.1 with
        | .ok r => (.ok r, { st with translators := out.2.1 }, out.2.2)
        | .error e => (.fail e, { st with translators := out.2.1 }, out.2.2)
  | .unknownAction a => (.fail ("Unknown action: " ++ a), st, 0)

def aiEnvHealthy : AIEnv :=
  ⟨reviewEnvOk, .ok 0, fun _ => .ok "docs", .ok 0, fun _ => .ok "refactored",
   .ok 0, fun _ => .ok "summary", fun _ _ => .ok 0, fun _ => .ok "translated"⟩

/-- Per-tab manager registry of the background service worker (part_000
lines 305-314): sessionMap maps a tab id to its AIManager, summarised here
by the list of session ids the manager owns; nextSid is a global fresh
counter standing for the object identity of capability-created sessions. -/
structure BgState where
  sessionMap : List (Nat × List Nat)
  nextSid : Nat
  deriving Repr, DecidableEq

def bgState0 : BgState := ⟨[], 0⟩

def mapErase {α : Type} (t : Nat) (l : List (Nat × α)) : List (Nat × α) :=
  l.filter (fun p => p.1 != t)

def mapUpdate {α : Type} (t : Nat) (f : α → α) (l : List (Nat × α)) :
    List (Nat × α) :=
  l.map (fun p => if p.1 = t then (p.1, f p.2) else p)

/-- getOrCreateAIManager (lines 309-314): reuse the tab's existing manager,
else register a fresh manager owning no sessions. -/
def getOrCreateAIManager (s : BgState) (tabId : Nat) : BgState :=
  match mapLookup tabId s.sessionMap with
  | some _ => s
  | none => ⟨(tabId, []) :: s.sessionMap, s.nextSid⟩

/-- A session creation performed by one tab's manager: the capability
returns a fresh session object, modelled by the global counter. -/
def createSessionFor (s : BgState) (tabId : Nat) : BgState :=
  match mapLookup tabId s.sessionMap with
  | some _ =>
      ⟨mapUpdate tabId (fun sids => s.nextSid :: sids) s.sessionMap, s.nextSid + 1⟩
  | none => s

/-- chrome.tabs.onRemoved listener (lines 425-432): cleanup and evict the
closed tab's manager when present; a tab with no manager is a no-op. -/
def tabRemoved (s : BgState) (tabId : Nat) : BgState :=
  match mapLookup tabId s.sessionMap with
  | some _ => ⟨mapErase tabId s.sessionMap, s.nextSid⟩
  | none => s

inductive BgEv where
  | request (tabId : Nat)
  | createSession (tabId : Nat)
  | tabRemoved (tabId : Nat)
  deriving Repr, DecidableEq

def bgStep (s : BgState) : BgEv → BgState
  | .request t => getOrCreateAIManager s t
  | .createSession t => createSessionFor s t
  | .tabRemoved t => tabRemoved s t

def bgRun (evs : List BgEv) (s : BgState) : BgState := evs.foldl bgStep s

def ReachableBg (s : BgState) : Prop := ∃ evs, bgRun evs bgState0 = s

/-- Registry well-formedness: tab keys are unique (one manager per
context), owned session ids are below the fresh counter, and no session
id is owned by two different tabs' managers. -/
def BgInv (s : BgState) : Prop :=
  (s.sessionMap.map Prod.fst).Nodup ∧
  (∀ p ∈ s.sessionMap, ∀ sid ∈ p.2, sid < s.nextSid) ∧
  (∀ p ∈ s.sessionMap, ∀ q ∈ s.sessionMap, p.1 ≠ q.1 →
      ∀ sid ∈ p.2, sid ∉ q.2)

/-- AIManager.cleanup (enhanced variant lines 701-730): destroy() is
attempted on every memoized session and translator, each attempt wrapped
in try/catch so a throwing destroy (destroyFails sid) is swallowed; then
every field is cleared and initializationPromises emptied.  Returns the
cleared state and the attempted destroy targets — note the result does
not depend on destroyFails, because the catch blocks discard the error. -/
def cleanup (destroyFails : Nat → Bool) (st : MgrSt) : MgrSt × List Nat :=
  (⟨none, none, none, none, []⟩,
   st.prompt.toList ++ st.writer.toList ++ st.rewriter.toList ++
     st.summarizer.toList ++ st.translators.map Prod.snd)

def bgTrace : List BgEv :=
  [.request 1, .createSession 1, .request 2, .createSession 2]

theorem initCallsFrom_inFlight (p : Nat) :
    ∀ (n : Nat) (st : InitState), st.inFlight = some p →
      initCallsFrom st n = (st, List.replicate n (.joined p)) := by
  intro n
  induction n with
  | zero => intro st _; rfl
  | succ n ih =>
      intro st h
      have hcs : callStep st = (st, .joined p) := by
        unfold callStep
        rw [h]
      simp only [initCallsFrom, hcs, ih st h, List.replicate_succ]

theorem callStep_fresh (st : InitState) (h1 : st.inFlight = none)
    (h2 : st.sessionPrompt = none) :
    callStep st =
      ({ sessionPrompt := none, inFlight := some st.nextPid,
         nextPid := st.nextPid + 1, createAttempts := st.createAttempts + 1 },
       .started st.nextPid) := by
  unfold callStep
  rw [h1, h2]

theorem callStep_joined (st : InitState) (p : Nat) (h : st.inFlight = some p) :
    callStep st = (st, .joined p) := by
  unfold callStep
  rw [h]

theorem callStep_memoized (st : InitState) (s : Nat) (h1 : st.inFlight = none)
    (h2 : st.sessionPrompt = some s) :
    callStep st = (st, .memoized s) := by
  unfold callStep
  rw [h1, h2]

theorem settleStep_noflight (st : InitState) (h : st.inFlight = none) (ok : Bool) :
    settleStep st ok = st := by
  unfold settleStep
  rw [h]

theorem settleStep_flight (st : InitState) (p : Nat) (h : st.inFlight = some p)
    (ok : Bool) :
    settleStep st ok =
      { sessionPrompt := if ok then some p else st.sessionPrompt,
        inFlight := none, nextPid := st.nextPid,
        createAttempts := st.createAttempts } := by
  unfold settleStep
  rw [h]

theorem initInv_step (st : InitState) (hinv : InitInv st) :
    InitInv (callStep st).1 ∧ ∀ ok, InitInv (settleStep st ok) := by
  constructor
  · cases hif : st.inFlight with
    | some q => rw [callStep_joined st q hif]; exact hinv
    | none =>
        cases hsp : st.sessionPrompt with
        | some s => rw [callStep_memoized st s hif hsp]; exact hinv
        | none =>
            rw [callStep_fresh st hif hsp]
            intro p _
            rfl
  · intro ok
    cases hif : st.inFlight with
    | some q =>
        rw [settleStep_flight st q hif ok]
        intro p hp
        cases hp
    | none =>
        rw [settleStep_noflight st hif ok]
        exact hinv

theorem initInv_run (evs : List InitEv) :
    ∀ st : InitState, InitInv st → InitInv (initRun evs st) := by
  induction evs with
  | nil => intro st h; exact h
  | cons e evs ih =>
      intro st h
      cases e with
      | call => exact ih _ (initInv_step _ h).1
      | settle ok => exact ih _ ((initInv_step _ h).2 ok)

theorem initInv_reachable (st : InitState) (h : ReachableInit st) : InitInv st := by
  obtain ⟨evs, hrun⟩ := h
  have base : InitInv initState0 := by intro p hp; cases hp
  exact hrun ▸ initInv_run evs initState0 base

/-- C1: for the prompt, writer, rewriter and summarizer kinds, while a
creation is in flight every further initialisation call joins that same
pending creation: n concurrent callers produce exactly one creation
attempt, the first caller starts promise 0 and all others join promise 0,
and when that promise fulfils the single created session is memoized for
everyone; at the capability level, one creation attempt issues at most one
create() call, and exactly one when the API is present and availability
does not report unavailable. -/
theorem C1_single_creation_in_flight :
    (∀ n : Nat, 1 ≤ n →
        (initCalls n).2 = .started 0 :: List.replicate (n - 1) (.joined 0) ∧
        (initCalls n).1.createAttempts = 1 ∧
        (settleStep (initCalls n).1 true).sessionPrompt = some 0) ∧
    (∀ env : PromptEnv, (createPromptSession env).createCalls ≤ 1) ∧
    (∀ (env : PromptEnv) (a : String), env.apiPresent = true →
        env.availability = .ok a → a ≠ "unavailable" →
        (createPromptSession env).createCalls = 1) := by
  refine ⟨?_, ?_, ?_⟩
  · intro n hn
    obtain ⟨m, rfl⟩ : ∃ m, n = m + 1 := ⟨n - 1, (Nat.succ_pred_eq_of_pos hn).symm⟩
    have hfirst : callStep initState0 =
        ({ sessionPrompt := none, inFlight := some 0, nextPid := 1,
           createAttempts := 1 }, .started 0) := rfl
    have hrest := initCallsFrom_inFlight 0 m
      { sessionPrompt := none, inFlight := some 0, nextPid := 1, createAttempts := 1 }
      rfl
    simp only [initCalls, initCallsFrom, hfirst, hrest, Nat.add_sub_cancel]
    exact ⟨trivial, trivial, rfl⟩
  · intro env
    rcases env with ⟨api, av, cr⟩
    cases api <;> rcases av with e | a <;> rcases cr with e2 | sid <;>
      simp only [createPromptSession] <;> simp <;> split <;> simp
  · intro env a hapi hav hun
    rcases env with ⟨api, av, cr⟩
    cases hapi
    cases hav
    rcases cr with e | sid <;> simp [createPromptSession, hun]

theorem C1_witness :
    (initCalls 3).2 = [.started 0, .joined 0, .joined 0] ∧
    (initCalls 3).1.createAttempts = 1 ∧
    (createPromptSession promptEnvHealthy).createCalls = 1 := by
  have h := C1_single_creation_in_flight
  have h3 := h.1 3 (by decide)
  refine ⟨h3.1.trans rfl, h3.2.1, ?_⟩
  exact h.2.2 promptEnvHealthy "readily" rfl rfl (by decide)

/-- C1 fails for the translator kind: initTranslatorSession has no
in-flight deduplication, so two concurrent translateComment callers for
the same language pair each start their own creation — two creation
attempts are in flight at once. -/
theorem C1_counterexample :
    (transCallStep (transCallStep transState0)).pendingCreates = 2 ∧
    (transCallStep (transCallStep transState0)).createAttempts = 2 := by
  decide

/-- C10: from any reachable manager state with a creation in flight,
settlement — fulfilment or rejection — removes the initializationPromises
entry; a rejected creation leaves no session memoized, and the next
initialisation call starts a fresh creation attempt instead of receiving
the rejected promise. -/
theorem C10_inflight_entry_cleared (st : InitState) (p : Nat)
    (hreach : ReachableInit st) (hp : st.inFlight = some p) :
    (settleStep st true).inFlight = none ∧
    (settleStep st true).sessionPrompt = some p ∧
    (settleStep st false).inFlight = none ∧
    (settleStep st false).sessionPrompt = none ∧
    (callStep (settleStep st false)).2 = .started st.nextPid ∧
    (callStep (settleStep st false)).1.createAttempts = st.createAttempts + 1 := by
  have hsp : st.sessionPrompt = none := initInv_reachable st hreach p hp
  have hfail : settleStep st false =
      { sessionPrompt := none, inFlight := none,
        nextPid := st.nextPid, createAttempts := st.createAttempts } := by
    unfold settleStep
    rw [hp]
    simp [hsp]
  have hok : settleStep st true =
      { sessionPrompt := some p, inFlight := none,
        nextPid := st.nextPid, createAttempts := st.createAttempts } := by
    unfold settleStep
    rw [hp]
    rfl
  refine ⟨by rw [hok], by rw [hok], by rw [hfail], by rw [hfail], ?_, ?_⟩
  · rw [hfail, callStep_fresh _ rfl rfl]
  · rw [hfail, callStep_fresh _ rfl rfl]

theorem C10_witness :
    (settleStep (initRun [.call] initState0) false).inFlight = none ∧
    (settleStep (initRun [.call] initState0) false).sessionPrompt = none ∧
    (callStep (settleStep (initRun [.call] initState0) false)).2 = .started 1 := by
  have h := C10_inflight_entry_cleared (initRun [.call] initState0) 0
    ⟨[.call], rfl⟩ rfl
  exact ⟨h.2.2.1, h.2.2.2.1, h.2.2.2.2.1⟩

theorem reviewTry_none_fresh (env : ReviewEnv) (k : Nat) :
    (reviewTry env none k).2.2 = true := by
  cases hc : env.create k with
  | error e => simp [reviewTry, hc]
  | ok sid =>
      cases hp : env.promptCall k sid with
      | error e => simp [reviewTry, hc, hp]
      | ok r => simp [reviewTry, hc, hp]

theorem reviewGo_zero_ok (env : ReviewEnv) (d : Nat → Nat) (k : Nat)
    (memo : Option Nat) (r : String) (m1 : Option Nat) (f : Bool)
    (h : reviewTry env memo k = (.ok r, m1, f)) :
    reviewGo env d k 0 memo = ⟨.ok ⟨r, env.now, k + 1⟩, m1, [], [], [⟨k, f⟩]⟩ := by
  simp only [reviewGo]
  rw [h]

theorem reviewGo_zero_err (env : ReviewEnv) (d : Nat → Nat) (k : Nat)
    (memo : Option Nat) (e : String) (m1 : Option Nat) (f : Bool)
    (h : reviewTry env memo k = (.error e, m1, f)) :
    reviewGo env d k 0 memo = ⟨.error e, none, [], m1.toList, [⟨k, f⟩]⟩ := by
  simp only [reviewGo]
  rw [h]

theorem reviewGo_succ_ok (env : ReviewEnv) (d : Nat → Nat) (k rl : Nat)
    (memo : Option Nat) (r : String) (m1 : Option Nat) (f : Bool)
    (h : reviewTry env memo k = (.ok r, m1, f)) :
    reviewGo env d k (rl + 1) memo = ⟨.ok ⟨r, env.now, k + 1⟩, m1, [], [], [⟨k, f⟩]⟩ := by
  simp only [reviewGo]
  rw [h]

theorem reviewGo_succ_err (env : ReviewEnv) (d : Nat → Nat) (k rl : Nat)
    (memo : Option Nat) (e : String) (m1 : Option Nat) (f : Bool)
    (h : reviewTry env memo k = (.error e, m1, f)) :
    reviewGo env d k (rl + 1) memo =
      ⟨(reviewGo env d (k + 1) rl none).result,
       (reviewGo env d (k + 1) rl none).finalMemo,
       (k, d k) :: (reviewGo env d (k + 1) rl none).delays,
       m1.toList ++ (reviewGo env d (k + 1) rl none).destroyed,
       ⟨k, f⟩ :: (reviewGo env d (k + 1) rl none).attempts⟩ := by
  simp only [reviewGo]
  rw [h]

theorem reviewGo_attempts_len (env : ReviewEnv) (d : Nat → Nat) :
    ∀ (rl k : Nat) (memo : Option Nat),
      1 ≤ (reviewGo env d k rl memo).attempts.length ∧
        (reviewGo env d k rl memo).attempts.length ≤ rl + 1 := by
  intro rl
  induction rl with
  | zero =>
      intro k memo
      rcases hr : reviewTry env memo k with ⟨o, m1, f⟩
      cases o with
      | ok r => rw [reviewGo_zero_ok env d k memo r m1 f hr]; simp
      | error e => rw [reviewGo_zero_err env d k memo e m1 f hr]; simp
  | succ rl ih =>
      intro k memo
      rcases hr : reviewTry env memo k with ⟨o, m1, f⟩
      cases o with
      | ok r => rw [reviewGo_succ_ok env d k rl memo r m1 f hr]; simp
      | error e =>
          rw [reviewGo_succ_err env d k rl memo e m1 f hr]
          have := ih (k + 1) none
          simp only [List.length_cons]
          omega

theorem reviewGo_ok_attempts (env : ReviewEnv) (d : Nat → Nat) :
    ∀ (rl k : Nat) (memo : Option Nat) (res : OperationResult),
      (reviewGo env d k rl memo).result = .ok res →
        k + 1 ≤ res.attempts ∧ res.attempts ≤ k + rl + 1 := by
  intro rl
  induction rl with
  | zero =>
      intro k memo res h
      rcases hr : reviewTry env memo k with ⟨o, m1, f⟩
      cases o with
      | ok r =>
          rw [reviewGo_zero_ok env d k memo r m1 f hr] at h
          have h2 : Except.ok (⟨r, env.now, k + 1⟩ : OperationResult) = .ok res := h
          injection h2 with h3
          rw [← h3]
          dsimp only
          omega
      | error e =>
          rw [reviewGo_zero_err env d k memo e m1 f hr] at h
          exact absurd h (by simp)
  | succ rl ih =>
      intro k memo res h
      rcases hr : reviewTry env memo k with ⟨o, m1, f⟩
      cases o with
      | ok r =>
          rw [reviewGo_succ_ok env d k rl memo r m1 f hr] at h
          have h2 : Except.ok (⟨r, env.now, k + 1⟩ : OperationResult) = .ok res := h
          injection h2 with h3
          rw [← h3]
          dsimp only
          omega
      | error e =>
          rw [reviewGo_succ_err env d k rl memo e m1 f hr] at h
          have h2 : (reviewGo env d (k + 1) rl none).result = .ok res := h
          have := ih (k + 1) none res h2
          omega

theorem delaySeq_length (d : Nat → Nat) :
    ∀ (m k : Nat), (delaySeq d k m).length = m := by
  intro m
  induction m with
  | zero => intro k; rfl
  | succ m ih => intro k; simp [delaySeq, ih (k + 1)]

theorem delaySeq_mem (d : Nat → Nat) :
    ∀ (m k : Nat) (p : Nat × Nat), p ∈ delaySeq d k m →
      k ≤ p.1 ∧ p.1 < k + m ∧ p.2 = d p.1 := by
  intro m
  induction m with
  | zero => intro k p hp; cases hp
  | succ m ih =>
      intro k p hp
      rcases List.mem_cons.mp hp with h | h
      · rw [h]
        exact ⟨Nat.le_refl _, by omega, rfl⟩
      · have := ih (k + 1) p h
        exact ⟨by omega, by omega, this.2.2⟩

theorem reviewGo_delays_eq (env : ReviewEnv) (d : Nat → Nat) :
    ∀ (rl k : Nat) (memo : Option Nat),
      (reviewGo env d k rl memo).delays =
        delaySeq d k ((reviewGo env d k rl memo).attempts.length - 1) := by
  intro rl
  induction rl with
  | zero =>
      intro k memo
      rcases hr : reviewTry env memo k with ⟨o, m1, f⟩
      cases o with
      | ok r => rw [reviewGo_zero_ok env d k memo r m1 f hr]; rfl
      | error e => rw [reviewGo_zero_err env d k memo e m1 f hr]; rfl
  | succ rl ih =>
      intro k memo
      rcases hr : reviewTry env memo k with ⟨o, m1, f⟩
      cases o with
      | ok r => rw [reviewGo_succ_ok env d k rl memo r m1 f hr]; rfl
      | error e =>
          rw [reviewGo_succ_err env d k rl memo e m1 f hr]
          have hlen := (reviewGo_attempts_len env d rl (k + 1) none).1
          obtain ⟨m, hm⟩ : ∃ m, (reviewGo env d (k + 1) rl none).attempts.length = m + 1 :=
            ⟨(reviewGo env d (k + 1) rl none).attempts.length - 1, by omega⟩
          simp only [List.length_cons, hm, Nat.add_sub_cancel]
          rw [ih (k + 1) none, hm]
          simp [delaySeq]

theorem reviewGo_err_memo (env : ReviewEnv) (d : Nat → Nat) :
    ∀ (rl k : Nat) (memo : Option Nat) (e : String),
      (reviewGo env d k rl memo).result = .error e →
        (reviewGo env d k rl memo).finalMemo = none := by
  intro rl
  induction rl with
  | zero =>
      intro k memo e h
      rcases hr : reviewTry env memo k with ⟨o, m1, f⟩
      cases o with
      | ok r => rw [reviewGo_zero_ok env d k memo r m1 f hr] at h; exact absurd h (by simp)
      | error e2 => rw [reviewGo_zero_err env d k memo e2 m1 f hr]
  | succ rl ih =>
      intro k memo e h
      rcases hr : reviewTry env memo k with ⟨o, m1, f⟩
      cases o with
      | ok r => rw [reviewGo_succ_ok env d k rl memo r m1 f hr] at h; exact absurd h (by simp)
      | error e2 =>
          rw [reviewGo_succ_err env d k rl memo e2 m1 f hr] at h ⊢
          exact ih (k + 1) none e h

theorem reviewGo_fresh_of_none (env : ReviewEnv) (d : Nat → Nat) :
    ∀ (rl k : Nat), ∀ i ∈ (reviewGo env d k rl none).attempts, i.fresh = true := by
  intro rl
  induction rl with
  | zero =>
      intro k i hi
      rcases hr : reviewTry env none k with ⟨o, m1, f⟩
      have hf : f = true := by
        have h0 := reviewTry_none_fresh env k
        rw [hr] at h0
        exact h0
      cases o with
      | ok r =>
          rw [reviewGo_zero_ok env d k none r m1 f hr] at hi
          rcases List.mem_singleton.mp hi with h
          rw [h, hf]
      | error e =>
          rw [reviewGo_zero_err env d k none e m1 f hr] at hi
          rcases List.mem_singleton.mp hi with h
          rw [h, hf]
  | succ rl ih =>
      intro k i hi
      rcases hr : reviewTry env none k with ⟨o, m1, f⟩
      have hf : f = true := by
        have h0 := reviewTry_none_fresh env k
        rw [hr] at h0
        exact h0
      cases o with
      | ok r =>
          rw [reviewGo_succ_ok env d k rl none r m1 f hr] at hi
          rcases List.mem_singleton.mp hi with h
          rw [h, hf]
      | error e =>
          rw [reviewGo_succ_err env d k rl none e m1 f hr] at hi
          rcases List.mem_cons.mp hi with h | h
          · rw [h, hf]
          · exact ih (k + 1) i h

theorem reviewGo_fresh_retries (env : ReviewEnv) (d : Nat → Nat) :
    ∀ (rl k : Nat) (memo : Option Nat),
      ∀ i ∈ (reviewGo env d k rl memo).attempts, k < i.idx → i.fresh = true := by
  intro rl
  cases rl with
  | zero =>
      intro k memo i hi hk
      rcases hr : reviewTry env memo k with ⟨o, m1, f⟩
      cases o with
      | ok r =>
          rw [reviewGo_zero_ok env d k memo r m1 f hr] at hi
          rw [List.mem_singleton.mp hi] at hk
          simp at hk
      | error e =>
          rw [reviewGo_zero_err env d k memo e m1 f hr] at hi
          rw [List.mem_singleton.mp hi] at hk
          simp at hk
  | succ rl =>
      intro k memo i hi hk
      rcases hr : reviewTry env memo k with ⟨o, m1, f⟩
      cases o with
      | ok r =>
          rw [reviewGo_succ_ok env d k rl memo r m1 f hr] at hi
          rw [List.mem_singleton.mp hi] at hk
          simp at hk
      | error e =>
          rw [reviewGo_succ_err env d k rl memo e m1 f hr] at hi
          rcases List.mem_cons.mp hi with h | h
          · rw [h] at hk
            simp at hk
          · exact reviewGo_fresh_of_none env d rl (k + 1) i h

theorem retryGo_zero_ok (f : Nat → Except String String) (b k : Nat) (r : String)
    (h : f k = .ok r) : retryGo f b k 0 = ⟨.ok r, [], 1⟩ := by
  simp only [retryGo]
  rw [h]

theorem retryGo_zero_err (f : Nat → Except String String) (b k : Nat) (e : String)
    (h : f k = .error e) :
    retryGo f b k 0 =
      ⟨.error ("Failed after " ++ toString (k + 1) ++ " attempts: " ++ e), [], 1⟩ := by
  simp only [retryGo]
  rw [h]

theorem retryGo_succ_ok (f : Nat → Except String String) (b k rl : Nat) (r : String)
    (h : f k = .ok r) : retryGo f b k (rl + 1) = ⟨.ok r, [], 1⟩ := by
  simp only [retryGo]
  rw [h]

theorem retryGo_succ_err (f : Nat → Except String String) (b k rl : Nat) (e : String)
    (h : f k = .error e) :
    retryGo f b k (rl + 1) =
      ⟨(retryGo f b (k + 1) rl).result,
       (k, b * 2 ^ k) :: (retryGo f b (k + 1) rl).delays,
       (retryGo f b (k + 1) rl).tries + 1⟩ := by
  simp only [retryGo]
  rw [h]

theorem retryGo_tries (f : Nat → Except String String) (b : Nat) :
    ∀ (rl k : Nat), 1 ≤ (retryGo f b k rl).tries ∧ (retryGo f b k rl).tries ≤ rl + 1 := by
  intro rl
  induction rl with
  | zero =>
      intro k
      rcases hf : f k with e | r
      · rw [retryGo_zero_err f b k e hf]; simp
      · rw [retryGo_zero_ok f b k r hf]; simp
  | succ rl ih =>
      intro k
      rcases hf : f k with e | r
      · rw [retryGo_succ_err f b k rl e hf]
        dsimp only
        have := ih (k + 1)
        omega
      · rw [retryGo_succ_ok f b k rl r hf]; simp

theorem retryGo_delays (f : Nat → Except String String) (b : Nat) :
    ∀ (rl k : Nat),
      (retryGo f b k rl).delays =
        delaySeq (fun j => b * 2 ^ j) k ((retryGo f b k rl).tries - 1) := by
  intro rl
  induction rl with
  | zero =>
      intro k
      rcases hf : f k with e | r
      · rw [retryGo_zero_err f b k e hf]; rfl
      · rw [retryGo_zero_ok f b k r hf]; rfl
  | succ rl ih =>
      intro k
      rcases hf : f k with e | r
      · rw [retryGo_succ_err f b k rl e hf]
        dsimp only
        have h1 := (retryGo_tries f b rl (k + 1)).1
        obtain ⟨m, hm⟩ : ∃ m, (retryGo f b (k + 1) rl).tries = m + 1 :=
          ⟨(retryGo f b (k + 1) rl).tries - 1, by omega⟩
        rw [ih (k + 1), hm]
        simp [delaySeq]
      · rw [retryGo_succ_ok f b k rl r hf]; rfl

theorem reviewCode_delays (env : ReviewEnv) (memo : Option Nat) :
    (reviewCode env memo).delays =
      (reviewGo env (fun k => 1000 * (k + 1)) 0 2 memo).delays := rfl

theorem reviewCode_attempts (env : ReviewEnv) (memo : Option Nat) :
    (reviewCode env memo).attempts =
      (reviewGo env (fun k => 1000 * (k + 1)) 0 2 memo).attempts := rfl

/-- C2: a run of the reviewCode retry loop executes between 1 and
maxRetries + 1 attempts; a successful OperationResult reports
1 ≤ attempts ≤ maxRetries + 1, with attempts = 1 when the first try
succeeds; and helpers.js retryWithBackoff likewise performs between 1 and
maxRetries + 1 attempts. -/
theorem C2_attempts_in_range :
    (∀ (env : ReviewEnv) (d : Nat → Nat) (mr : Nat) (memo : Option Nat)
        (res : OperationResult),
        (reviewGo env d 0 mr memo).result = .ok res →
          1 ≤ res.attempts ∧ res.attempts ≤ mr + 1) ∧
    (∀ (env : ReviewEnv) (d : Nat → Nat) (mr : Nat) (memo : Option Nat),
        1 ≤ (reviewGo env d 0 mr memo).attempts.length ∧
          (reviewGo env d 0 mr memo).attempts.length ≤ mr + 1) ∧
    (∀ (env : ReviewEnv) (memo : Option Nat) (r : String) (m1 : Option Nat) (f : Bool),
        reviewTry env memo 0 = (.ok r, m1, f) →
          (reviewCode env memo).result = .ok ⟨r, env.now, 1⟩) ∧
    (∀ (f : Nat → Except String String) (mr base : Nat),
        1 ≤ (retryWithBackoff f mr base).tries ∧
          (retryWithBackoff f mr base).tries ≤ mr + 1) := by
  refine ⟨?_, ?_, ?_, ?_⟩
  · intro env d mr memo res h
    have := reviewGo_ok_attempts env d mr 0 memo res h
    omega
  · intro env d mr memo
    exact reviewGo_attempts_len env d mr 0 memo
  · intro env memo r m1 f h
    unfold reviewCode
    rw [reviewGo_succ_ok env (fun k => 1000 * (k + 1)) 0 1 memo r m1 f h]
  · intro f mr base
    exact retryGo_tries f base mr 0

theorem C2_witness :
    reviewTry reviewEnvOk none 0 = (.ok "fine", some 0, true) ∧
    (reviewCode reviewEnvOk none).result = .ok ⟨"fine", 7, 1⟩ := by
  have h : reviewTry reviewEnvOk none 0 = (.ok "fine", some 0, true) := rfl
  exact ⟨h, C2_attempts_in_range.2.2.1 reviewEnvOk none "fine" (some 0) true h⟩

/-- C3 (amended): the code-review operation destroys the suspect session
and clears the memo on every failed attempt before any retry — an overall
failure leaves no session memoized, every retry attempt starts from an
empty memo with a fresh creation, and a failed attempt's session id is
among the destroy() targets.  The other operations (generateDocumentation
shown; refactorCode, summarizePR and translateComment have the same
shape) perform no retry and never call destroy: on failure the session
stays memoized. -/
theorem C3_review_destroys_before_retry :
    (∀ (env : ReviewEnv) (d : Nat → Nat) (rl k : Nat) (memo : Option Nat) (e : String),
        (reviewGo env d k rl memo).result = .error e →
          (reviewGo env d k rl memo).finalMemo = none) ∧
    (∀ (env : ReviewEnv) (d : Nat → Nat) (rl k : Nat) (memo : Option Nat),
        ∀ i ∈ (reviewGo env d k rl memo).attempts, k < i.idx → i.fresh = true) ∧
    (∀ (env : ReviewEnv) (d : Nat → Nat) (rl k : Nat) (memo : Option Nat)
        (e : String) (sid : Nat) (f : Bool),
        reviewTry env memo k = (.error e, some sid, f) →
          sid ∈ (reviewGo env d k rl memo).destroyed) ∧
    (∀ (create : Except String Nat) (writeCall : Nat → Except String String)
        (memo : Option Nat),
        (generateDocumentation create writeCall memo).destroyed = [] ∧
        ∀ w, memo = some w →
          (generateDocumentation create writeCall memo).memo = some w) := by
  refine ⟨?_, ?_, ?_, ?_⟩
  · intro env d rl k memo e h
    exact reviewGo_err_memo env d rl k memo e h
  · intro env d rl k memo
    exact reviewGo_fresh_retries env d rl k memo
  · intro env d rl k memo e sid f h
    cases rl with
    | zero =>
        rw [reviewGo_zero_err env d k memo e (some sid) f h]
        simp [Option.toList]
    | succ rl =>
        rw [reviewGo_succ_err env d k rl memo e (some sid) f h]
        simp [Option.toList]
  · intro create writeCall memo
    constructor
    · rcases memo with _ | w
      · rcases create with e | w
        · simp [generateDocumentation]
        · cases hw : writeCall w <;> simp [generateDocumentation, hw]
      · cases hw : writeCall w <;> simp [generateDocumentation, hw]
    · intro w hw
      subst hw
      cases hc : writeCall w <;> simp [generateDocumentation, hc]

/-- C3 fails as stated: a generateDocumentation attempt that fails (here a
timeout of the write call) leaves the writer session memoized, with no
destroy() call and no retry. -/
theorem C3_counterexample :
    (generateDocumentation (.ok 99) (fun _ => .error "Operation timed out")
        (some 5)).result = .error "Operation timed out" ∧
    (generateDocumentation (.ok 99) (fun _ => .error "Operation timed out")
        (some 5)).memo = some 5 ∧
    (generateDocumentation (.ok 99) (fun _ => .error "Operation timed out")
        (some 5)).destroyed = [] := ⟨rfl, rfl, rfl⟩

theorem C3_witness :
    reviewTry reviewEnvFirstTimeout none 0 = (.error "Operation timed out", some 0, true) ∧
    0 ∈ (reviewGo reviewEnvFirstTimeout (fun k => 1000 * (k + 1)) 0 2 none).destroyed ∧
    (reviewGo reviewEnvAllFail (fun k => 1000 * (k + 1)) 0 2 none).result =
      .error "Operation timed out" ∧
    (reviewGo reviewEnvAllFail (fun k => 1000 * (k + 1)) 0 2 none).finalMemo = none := by
  have h1 : reviewTry reviewEnvFirstTimeout none 0 =
      (.error "Operation timed out", some 0, true) := rfl
  have h3 : (reviewGo reviewEnvAllFail (fun k => 1000 * (k + 1)) 0 2 none).result =
      .error "Operation timed out" := rfl
  exact ⟨h1,
    C3_review_destroys_before_retry.2.2.1 reviewEnvFirstTimeout _ 2 0 none _ 0 true h1,
    h3,
    C3_review_destroys_before_retry.1 reviewEnvAllFail _ 2 0 none _ h3⟩

/-- C4: every backoff delay awaited between consecutive attempts of the
enhanced reviewCode equals baseDelay * 2 ^ attempt with baseDelay = 1000
(the source computes 1000 * (attempt + 1), which coincides with
1000 * 2 ^ attempt on the only attempt indices, 0 and 1, that can be
followed by a retry when maxRetries = 2), and exactly one delay separates
consecutive attempts; retryWithBackoff awaits exactly
baseDelay * 2 ^ attempt, one delay between consecutive attempts. -/
theorem C4_exponential_backoff :
    (∀ (env : ReviewEnv) (memo : Option Nat) (p : Nat × Nat),
        p ∈ (reviewCode env memo).delays → p.2 = 1000 * 2 ^ p.1) ∧
    (∀ (env : ReviewEnv) (memo : Option Nat),
        (reviewCode env memo).delays.length + 1 =
          (reviewCode env memo).attempts.length) ∧
    (∀ (f : Nat → Except String String) (mr base : Nat) (p : Nat × Nat),
        p ∈ (retryWithBackoff f mr base).delays → p.2 = base * 2 ^ p.1) ∧
    (∀ (f : Nat → Except String String) (mr base : Nat),
        (retryWithBackoff f mr base).delays.length + 1 =
          (retryWithBackoff f mr base).tries) := by
  refine ⟨?_, ?_, ?_, ?_⟩
  · intro env memo p hp
    rw [reviewCode_delays, reviewGo_delays_eq] at hp
    have hlen := reviewGo_attempts_len env (fun k => 1000 * (k + 1)) 2 0 memo
    have hm := delaySeq_mem (fun k => 1000 * (k + 1)) _ 0 p hp
    have h1 : p.1 = 0 ∨ p.1 = 1 := by omega
    rcases h1 with h1 | h1 <;> rw [hm.2.2, h1] <;> norm_num
  · intro env memo
    rw [reviewCode_delays, reviewCode_attempts, reviewGo_delays_eq, delaySeq_length]
    have := (reviewGo_attempts_len env (fun k => 1000 * (k + 1)) 2 0 memo).1
    omega
  · intro f mr base p hp
    simp only [retryWithBackoff] at hp
    rw [retryGo_delays] at hp
    exact (delaySeq_mem (fun j => base * 2 ^ j) _ 0 p hp).2.2
  · intro f mr base
    simp only [retryWithBackoff]
    rw [retryGo_delays, delaySeq_length]
    have := retryGo_tries f base mr 0
    omega

theorem C4_witness :
    (0, 1000) ∈ (reviewCode reviewEnvFirstTimeout none).delays ∧
    ((0, 1000) : Nat × Nat).2 = 1000 * 2 ^ ((0, 1000) : Nat × Nat).1 ∧
    (0, 2000) ∈ (retryWithBackoff
        (fun k => if k = 0 then .error "boom" else .ok "done") 3 2000).delays ∧
    ((0, 2000) : Nat × Nat).2 = 2000 * 2 ^ ((0, 2000) : Nat × Nat).1 := by
  have hmem : (0, 1000) ∈ (reviewCode reviewEnvFirstTimeout none).delays := by
    have h : (reviewCode reviewEnvFirstTimeout none).delays = [(0, 1000)] := rfl
    rw [h]
    exact List.mem_singleton.mpr rfl
  have hmem2 : (0, 2000) ∈ (retryWithBackoff
      (fun k => if k = 0 then .error "boom" else .ok "done") 3 2000).delays := by
    have h : (retryWithBackoff
        (fun k => if k = 0 then .error "boom" else .ok "done") 3 2000).delays =
        [(0, 2000)] := rfl
    rw [h]
    exact List.mem_singleton.mpr rfl
  exact ⟨hmem, C4_exponential_backoff.1 reviewEnvFirstTimeout none (0, 1000) hmem,
    hmem2, C4_exponential_backoff.2.2.1 _ 3 2000 (0, 2000) hmem2⟩

/-- C5 (amended): the code-carrying requests (reviewCode, generateDocs,
refactorCode) reject input below 10 trimmed characters before any session
work — the response is the invalid-input error, the manager state is
unchanged and no session creation is attempted; summarizePR and
translateComment validate only non-emptiness, rejecting exactly the empty
text in the same way. -/
theorem C5_short_input_rejected :
    (∀ (env : AIEnv) (st : MgrSt) (code : String), (jsTrim code).length < 10 →
        handleMessageAsync env st (.reviewCode code) =
          (.fail "Code is too short or empty", st, 0) ∧
        handleMessageAsync env st (.generateDocs code) =
          (.fail "Code is too short or empty", st, 0) ∧
        handleMessageAsync env st (.refactorCode code) =
          (.fail "Code is too short or empty", st, 0)) ∧
    (∀ (env : AIEnv) (st : MgrSt) (t tgt src : String),
        handleMessageAsync env st (.summarizePR "") =
          (.fail "No content to summarize", st, 0) ∧
        (t.isEmpty = true →
          handleMessageAsync env st (.translateComment t tgt src) =
            (.fail "No text to translate", st, 0))) := by
  constructor
  · intro env st code h
    refine ⟨?_, ?_, ?_⟩ <;> simp [handleMessageAsync, h]
  · intro env st t tgt src
    constructor
    · have h0 : ("" : String).isEmpty = true := rfl
      simp [handleMessageAsync, h0]
    · intro ht
      simp [handleMessageAsync, ht]

theorem C5_witness :
    (jsTrim "tiny").length < 10 ∧
    handleMessageAsync aiEnvHealthy mgrSt0 (.reviewCode "tiny") =
      (.fail "Code is too short or empty", mgrSt0, 0) := by
  have h : (jsTrim "tiny").length < 10 := by decide
  exact ⟨h, (C5_short_input_rejected.1 aiEnvHealthy mgrSt0 "tiny" h).1⟩

/-- C5 fails as stated: a summarizePR request whose content "short" has
only 5 trimmed characters (below the 10-character minimum) is not
rejected — the dispatcher invokes the operation, one summarizer session
creation is issued and the created session is memoized.  translateComment
behaves the same way. -/
theorem C5_counterexample :
    (jsTrim "short").length < 10 ∧
    handleMessageAsync aiEnvHealthy mgrSt0 (.summarizePR "short") =
      (.ok "summary", { mgrSt0 with summarizer := some 0 }, 1) := by
  constructor
  · decide
  · rfl

theorem reviewPromptEnhanced_length (language code : String) :
    (reviewPromptEnhanced language code).length =
      (reviewPromptEnhanced language "").length + code.length := by
  simp [reviewPromptEnhanced, String.length_append]
  omega

theorem docPromptEnhanced_length (code : String) :
    (docPromptEnhanced code).length =
      (docPromptEnhanced "").length + code.length := by
  have h0 : ("" : String).length = 0 := rfl
  simp only [docPromptEnhanced, String.length_append, h0]
  omega

/-- C6 (amended): the simple-variant operations truncate the caller text
to 2000 characters before building the prompt — the prompt depends only
on the first 2000 characters, and the embedded code segment never exceeds
2000 characters; the enhanced-variant prompts embed the text verbatim,
their length growing by exactly the code length with no bound. -/
theorem C6_simple_variant_truncates :
    (∀ code : String,
        reviewPromptSimple code = reviewPromptSimple (jsSubstring code 2000) ∧
        docPromptSimple code = docPromptSimple (jsSubstring code 2000) ∧
        refactorPromptSimple code = refactorPromptSimple (jsSubstring code 2000) ∧
        (jsSubstring code 2000).length ≤ 2000) ∧
    (∀ code : String,
        (reviewPromptEnhanced "code" code).length =
          (reviewPromptEnhanced "code" "").length + code.length ∧
        (docPromptEnhanced code).length =
          (docPromptEnhanced "").length + code.length) := by
  constructor
  · intro code
    have hj : jsSubstring (jsSubstring code 2000) 2000 = jsSubstring code 2000 := by
      simp [jsSubstring, List.take_take]
    refine ⟨?_, ?_, ?_, ?_⟩
    · simp only [reviewPromptSimple, hj]
    · simp only [docPromptSimple, hj]
    · simp only [refactorPromptSimple, hj]
    · rw [jsSubstring, String.mk_length]
      simp [List.length_take]
  · intro code
    exact ⟨reviewPromptEnhanced_length "code" code, docPromptEnhanced_length code⟩

/-- C6 fails as stated: the enhanced-variant reviewCode performs no
truncation — its prompt for a 2500-character code embeds all 2500
characters (500 beyond the simple variant's 2000-character bound) and
differs from the prompt built from the 2000-truncated code. -/
theorem C6_counterexample :
    bigCode.length = 2500 ∧
    (reviewPromptEnhanced "code" bigCode).length =
      (reviewPromptEnhanced "code" "").length + 2500 ∧
    reviewPromptEnhanced "code" bigCode ≠
      reviewPromptEnhanced "code" (jsSubstring bigCode 2000) := by
  have hbig : bigCode.length = 2500 := by
    rw [bigCode, String.mk_length, List.length_replicate]
  have hsub : (jsSubstring bigCode 2000).length = 2000 := by
    rw [jsSubstring, String.mk_length, bigCode]
    show ((List.replicate 2500 'a').take 2000).length = 2000
    rw [List.length_take, List.length_replicate]
    omega
  refine ⟨hbig, ?_, ?_⟩
  · rw [reviewPromptEnhanced_length, hbig]
  · intro h
    have hlen := congrArg String.length h
    rw [reviewPromptEnhanced_length "code" bigCode, hbig,
        reviewPromptEnhanced_length "code" (jsSubstring bigCode 2000), hsub] at hlen
    omega

/-- C7 (amended): both checkCapabilities variants return a Capabilities
record on every environment, degrading flags on internal failure.  When
the capability type is absent, the simple variant reports
{ apiFound:false, prompt:false, promptStatus:'not-found' } (and 'error'
when the verification create fails), while the enhanced variant reports
apiFound:false and prompt:false but leaves promptStatus unset; a rejected
availability() in the enhanced variant likewise degrades to a false flag
with the status unset. -/
theorem C7_capabilities_degrade :
    (∀ env : SimpleCapEnv, env.apiPresent = false →
        checkCapabilitiesSimple env = ⟨false, "not-found", false⟩) ∧
    (∀ (env : SimpleCapEnv) (e : String), env.apiPresent = true →
        env.createOutcome = .error e →
        checkCapabilitiesSimple env = ⟨false, "error", true⟩) ∧
    (∀ env : EnhCapEnv, env.prompt.present = false →
        (checkCapabilitiesEnhanced env).apiFound = false ∧
        (checkCapabilitiesEnhanced env).prompt = false ∧
        (checkCapabilitiesEnhanced env).promptStatus = none) ∧
    (∀ (env : EnhCapEnv) (e : String), env.prompt.availability = .error e →
        (checkCapabilitiesEnhanced env).prompt = false ∧
        (checkCapabilitiesEnhanced env).promptStatus = none) := by
  refine ⟨?_, ?_, ?_, ?_⟩
  · intro env h
    simp [checkCapabilitiesSimple, h]
  · intro env e hapi hco
    simp [checkCapabilitiesSimple, hapi, hco]
  · intro env h
    refine ⟨h, ?_, ?_⟩ <;> simp [checkCapabilitiesEnhanced, probeKind, h]
  · intro env e h
    cases hp : env.prompt.present <;>
      constructor <;> simp [checkCapabilitiesEnhanced, probeKind, h, hp]

theorem C7_witness :
    simpleCapEnvAbsent.apiPresent = false ∧
    checkCapabilitiesSimple simpleCapEnvAbsent = ⟨false, "not-found", false⟩ ∧
    (checkCapabilitiesEnhanced enhCapEnvAbsent).promptStatus = none :=
  ⟨rfl, C7_capabilities_degrade.1 simpleCapEnvAbsent rfl,
   (C7_capabilities_degrade.2.2.1 enhCapEnvAbsent rfl).2.2⟩

/-- C7 fails as stated: with the capability type absent, the enhanced
checkCapabilities resolves with apiFound:false and prompt:false but its
promptStatus field is never set — it is not the claimed 'not-found'
(only the simple variant produces that status). -/
theorem C7_counterexample :
    (checkCapabilitiesEnhanced enhCapEnvAbsent).apiFound = false ∧
    (checkCapabilitiesEnhanced enhCapEnvAbsent).prompt = false ∧
    (checkCapabilitiesEnhanced enhCapEnvAbsent).promptStatus ≠ some "not-found" := by
  refine ⟨rfl, rfl, ?_⟩
  have h : (checkCapabilitiesEnhanced enhCapEnvAbsent).promptStatus = none := rfl
  rw [h]
  exact fun hc => Option.noConfusion hc

theorem mapLookup_none_keys {α : Type} (t : Nat) :
    ∀ l : List (Nat × α), mapLookup t l = none → t ∉ l.map Prod.fst := by
  intro l
  induction l with
  | nil => intro _ h; cases h
  | cons p rest ih =>
      intro hl hmem
      rcases p with ⟨k, v⟩
      by_cases hk : k = t
      · rw [mapLookup, if_pos hk] at hl
        cases hl
      · rw [mapLookup, if_neg hk] at hl
        rcases List.mem_cons.mp hmem with h | h
        · exact hk h.symm
        · exact ih hl h

theorem mapUpdate_keys {α : Type} (t : Nat) (f : α → α) :
    ∀ l : List (Nat × α), (mapUpdate t f l).map Prod.fst = l.map Prod.fst := by
  intro l
  induction l with
  | nil => rfl
  | cons p rest ih =>
      rcases p with ⟨k, v⟩
      by_cases hk : k = t <;>
        simp [mapUpdate, hk] at ih ⊢ <;> exact ih

theorem mem_mapUpdate {α : Type} (t : Nat) (f : α → α) (l : List (Nat × α))
    (q : Nat × α) (h : q ∈ mapUpdate t f l) :
    ∃ p ∈ l, q = if p.1 = t then (p.1, f p.2) else p := by
  rw [mapUpdate] at h
  obtain ⟨p, hp, he⟩ := List.mem_map.mp h
  exact ⟨p, hp, he.symm⟩

theorem mem_mapErase {α : Type} (t : Nat) (l : List (Nat × α)) (q : Nat × α)
    (h : q ∈ mapErase t l) : q ∈ l ∧ q.1 ≠ t := by
  rw [mapErase] at h
  have h2 := List.mem_filter.mp h
  refine ⟨h2.1, ?_⟩
  simpa using h2.2

theorem mapErase_keys_sublist {α : Type} (t : Nat) (l : List (Nat × α)) :
    ((mapErase t l).map Prod.fst).Sublist (l.map Prod.fst) :=
  (List.filter_sublist l).map Prod.fst

theorem mapLookup_mapErase_ne {α : Type} (a t : Nat) (hne : a ≠ t) :
    ∀ l : List (Nat × α), mapLookup a (mapErase t l) = mapLookup a l := by
  intro l
  induction l with
  | nil => rfl
  | cons p rest ih =>
      rcases p with ⟨k, v⟩
      by_cases hk : k = t
      · have h1 : mapErase t ((k, v) :: rest) = mapErase t rest := by
          simp [mapErase, List.filter_cons, hk]
        have hka : ¬k = a := fun h => hne (h ▸ hk.symm ▸ rfl)
        rw [h1, ih, mapLookup, if_neg hka]
      · have h1 : mapErase t ((k, v) :: rest) = (k, v) :: mapErase t rest := by
          simp [mapErase, List.filter_cons, hk]
        rw [h1]
        by_cases hka : k = a
        · rw [mapLookup, if_pos hka, mapLookup, if_pos hka]
        · rw [mapLookup, if_neg hka, mapLookup, if_neg hka, ih]

theorem getOrCreate_some (s : BgState) (t : Nat) (m : List Nat)
    (h : mapLookup t s.sessionMap = some m) : getOrCreateAIManager s t = s := by
  unfold getOrCreateAIManager
  rw [h]

theorem getOrCreate_none (s : BgState) (t : Nat)
    (h : mapLookup t s.sessionMap = none) :
    getOrCreateAIManager s t = ⟨(t, []) :: s.sessionMap, s.nextSid⟩ := by
  unfold getOrCreateAIManager
  rw [h]

theorem createSessionFor_some (s : BgState) (t : Nat) (m : List Nat)
    (h : mapLookup t s.sessionMap = some m) :
    createSessionFor s t =
      ⟨mapUpdate t (fun sids => s.nextSid :: sids) s.sessionMap, s.nextSid + 1⟩ := by
  unfold createSessionFor
  rw [h]

theorem createSessionFor_none (s : BgState) (t : Nat)
    (h : mapLookup t s.sessionMap = none) : createSessionFor s t = s := by
  unfold createSessionFor
  rw [h]

theorem tabRemoved_some (s : BgState) (t : Nat) (m : List Nat)
    (h : mapLookup t s.sessionMap = some m) :
    tabRemoved s t = ⟨mapErase t s.sessionMap, s.nextSid⟩ := by
  unfold tabRemoved
  rw [h]

theorem tabRemoved_none (s : BgState) (t : Nat)
    (h : mapLookup t s.sessionMap = none) : tabRemoved s t = s := by
  unfold tabRemoved
  rw [h]

theorem bgInv_getOrCreate (s : BgState) (t : Nat) (h : BgInv s) :
    BgInv (getOrCreateAIManager s t) := by
  cases hl : mapLookup t s.sessionMap with
  | some m => rw [getOrCreate_some s t m hl]; exact h
  | none =>
      rw [getOrCreate_none s t hl]
      obtain ⟨hnd, hbound, hdisj⟩ := h
      refine ⟨?_, ?_, ?_⟩
      · simp only [List.map_cons]
        exact List.nodup_cons.mpr ⟨mapLookup_none_keys t s.sessionMap hl, hnd⟩
      · intro p hp sid hsid
        rcases List.mem_cons.mp hp with rfl | hp
        · cases hsid
        · exact Nat.lt_of_lt_of_le (hbound p hp sid hsid) (Nat.le_refl _)
      · intro p hp q hq hne sid hsid hmem
        rcases List.mem_cons.mp hp with rfl | hp
        · cases hsid
        · rcases List.mem_cons.mp hq with rfl | hq
          · cases hmem
          · exact hdisj p hp q hq hne sid hsid hmem

theorem bgInv_createSession (s : BgState) (t : Nat) (h : BgInv s) :
    BgInv (createSessionFor s t) := by
  cases hl : mapLookup t s.sessionMap with
  | none => rw [createSessionFor_none s t hl]; exact h
  | some m =>
      rw [createSessionFor_some s t m hl]
      obtain ⟨hnd, hbound, hdisj⟩ := h
      refine ⟨?_, ?_, ?_⟩
      · show ((mapUpdate t (fun sids => s.nextSid :: sids) s.sessionMap).map Prod.fst).Nodup
        rw [mapUpdate_keys]
        exact hnd
      · intro p hp sid hsid
        obtain ⟨p0, hp0, hpe⟩ := mem_mapUpdate _ _ _ p hp
        show sid < s.nextSid + 1
        by_cases hpt : p0.1 = t
        · rw [if_pos hpt] at hpe
          subst hpe
          rcases List.mem_cons.mp hsid with rfl | hs2
          · omega
          · have := hbound p0 hp0 sid hs2
            omega
        · rw [if_neg hpt] at hpe
          subst hpe
          have := hbound p hp0 sid hsid
          omega
      · intro p hp q hq hne sid hsid hmem
        obtain ⟨p0, hp0, hpe⟩ := mem_mapUpdate _ _ _ p hp
        obtain ⟨q0, hq0, hqe⟩ := mem_mapUpdate _ _ _ q hq
        by_cases hpt : p0.1 = t
        · rw [if_pos hpt] at hpe
          by_cases hqt : q0.1 = t
          · rw [if_pos hqt] at hqe
            subst hpe
            subst hqe
            exact hne (by dsimp; rw [hpt, hqt])
          · rw [if_neg hqt] at hqe
            subst hpe
            subst hqe
            have hne0 : p0.1 ≠ q.1 := hne
            rcases List.mem_cons.mp hsid with rfl | hs2
            · exact absurd (hbound q hq0 s.nextSid hmem) (Nat.lt_irrefl _)
            · exact hdisj p0 hp0 q hq0 hne0 sid hs2 hmem
        · rw [if_neg hpt] at hpe
          by_cases hqt : q0.1 = t
          · rw [if_pos hqt] at hqe
            subst hpe
            subst hqe
            have hne0 : p.1 ≠ q0.1 := hne
            rcases List.mem_cons.mp hmem with heq | hm2
            · have := hbound p hp0 sid hsid
              omega
            · exact hdisj p hp0 q0 hq0 hne0 sid hsid hm2
          · rw [if_neg hqt] at hqe
            subst hpe
            subst hqe
            exact hdisj p hp0 q hq0 hne sid hsid hmem

theorem bgInv_tabRemoved (s : BgState) (t : Nat) (h : BgInv s) :
    BgInv (tabRemoved s t) := by
  cases hl : mapLookup t s.sessionMap with
  | none => rw [tabRemoved_none s t hl]; exact h
  | some m =>
      rw [tabRemoved_some s t m hl]
      obtain ⟨hnd, hbound, hdisj⟩ := h
      refine ⟨?_, ?_, ?_⟩
      · exact List.Nodup.sublist (mapErase_keys_sublist t s.sessionMap) hnd
      · intro p hp sid hsid
        exact hbound p (mem_mapErase t _ p hp).1 sid hsid
      · intro p hp q hq hne sid hsid
        exact hdisj p (mem_mapErase t _ p hp).1 q (mem_mapErase t _ q hq).1 hne sid hsid

theorem bgInv_run (evs : List BgEv) :
    ∀ s : BgState, BgInv s → BgInv (bgRun evs s) := by
  induction evs with
  | nil => intro s h; exact h
  | cons e evs ih =>
      intro s h
      cases e with
      | request t => exact ih _ (bgInv_getOrCreate s t h)
      | createSession t => exact ih _ (bgInv_createSession s t h)
      | tabRemoved t => exact ih _ (bgInv_tabRemoved s t h)

/-- C8: in every reachable registry state each tab id keys at most one
Session Manager instance, and the session ids owned by different tabs'
managers are disjoint — no Session is shared across two contexts; a
request for a tab that already has a manager reuses it unchanged; and a
tab-close event for tab a leaves every other tab's manager entry — and
hence its sessions — exactly as it was. -/
theorem C8_context_isolation :
    (∀ s : BgState, ReachableBg s → BgInv s) ∧
    (∀ (s : BgState) (t : Nat) (m : List Nat),
        mapLookup t s.sessionMap = some m → getOrCreateAIManager s t = s) ∧
    (∀ (s : BgState) (a b : Nat), a ≠ b →
        mapLookup b (tabRemoved s a).sessionMap = mapLookup b s.sessionMap) := by
  refine ⟨?_, ?_, ?_⟩
  · intro s hs
    obtain ⟨evs, hrun⟩ := hs
    have h0 : BgInv bgState0 :=
      ⟨List.nodup_nil, fun p hp => absurd hp (List.not_mem_nil p),
       fun p hp => absurd hp (List.not_mem_nil p)⟩
    exact hrun ▸ bgInv_run evs bgState0 h0
  · intro s t m h
    exact getOrCreate_some s t m h
  · intro s a b hne
    cases hl : mapLookup a s.sessionMap with
    | none => rw [tabRemoved_none s a hl]
    | some m =>
        rw [tabRemoved_some s a m hl]
        exact mapLookup_mapErase_ne b a (fun hba => hne hba.symm) s.sessionMap

theorem C8_witness :
    BgInv (bgRun bgTrace bgState0) ∧
    mapLookup 2 (tabRemoved (bgRun bgTrace bgState0) 1).sessionMap =
      mapLookup 2 (bgRun bgTrace bgState0).sessionMap ∧
    getOrCreateAIManager (bgRun bgTrace bgState0) 1 = bgRun bgTrace bgState0 :=
  ⟨C8_context_isolation.1 _ ⟨bgTrace, rfl⟩,
   C8_context_isolation.2.2 _ 1 2 (by decide),
   C8_context_isolation.2.1 _ 1 [0] rfl⟩

/-- C9: AIManager.cleanup always yields the cleared manager and swallows
every session destroy failure (its outcome does not depend on which
destroys throw); running cleanup a second time is a no-op that attempts
no destroy and raises nothing; and the tab-close handler for a tab with
no registered manager is a no-op. -/
theorem C9_destroy_idempotent :
    (∀ (destroyFails : Nat → Bool) (st : MgrSt),
        (cleanup destroyFails st).1 = mgrSt0) ∧
    (∀ (destroyFails destroyFails2 : Nat → Bool) (st : MgrSt),
        cleanup destroyFails2 (cleanup destroyFails st).1 = (mgrSt0, [])) ∧
    (∀ (destroyFails destroyFails2 : Nat → Bool) (st : MgrSt),
        cleanup destroyFails st = cleanup destroyFails2 st) ∧
    (∀ (s : BgState) (t : Nat),
        mapLookup t s.sessionMap = none → tabRemoved s t = s) := by
  refine ⟨?_, ?_, ?_, ?_⟩
  · intro f st; rfl
  · intro f g st; rfl
  · intro f g st; rfl
  · intro s t h
    exact tabRemoved_none s t h

theorem C9_witness :
    mapLookup 7 bgState0.sessionMap = none ∧
    tabRemoved bgState0 7 = bgState0 ∧
    cleanup (fun _ => true) mgrSt0 = (mgrSt0, []) :=
  ⟨rfl, C9_destroy_idempotent.2.2.2 bgState0 7 rfl,
   C9_destroy_idempotent.2.1 (fun _ => false) (fun _ => true) mgrSt0⟩
